/-
Verification of the char2vec sequence-encoder core (code/char2vec.py).

The Python code is shallowly embedded as executable Lean definitions:

* Char2Vec.MakeMat is pure Python list code; it is embedded directly
  (makeMatRow, makeMat).  The external collaborators (the character
  vocabulary and the grapheme segmentation of util.Graphemes) are taken
  as function parameters, a vocabulary lookup that can fail being a
  function into Option.  Python slice semantics word_idx[:pad_len-2]
  (including negative bounds) are embedded by pyTake.
* Char2Vec.GetBatchVocab is numpy code: np.unique is embedded as a
  sorted-distinct construction (npUnique) and the np.place update loop
  as a fold of elementwise replacements (npPlace / npPlaceMat).
* CharLSTM builds a TensorFlow graph; the graph's forward computation is
  embedded with tensors represented as functions (time-major: a sequence
  of per-timestep batch rows is t ↦ b ↦ value).  LSTM cells, the
  character embedding table and the output matrix are abstract
  parameters (LSTMParams); tf.nn.rnn with a sequence_length argument is
  embedded as a masked recurrence that emits a zero output and freezes
  the state past each row's length, reverse_seq (defined in the source
  file itself) as the per-row time reversal up to the row's length, and
  the pack/reshape/gather trick of CharLSTM._GetLastOutput as indexing a
  time-major flattening.
* The dropout wiring of CharLSTM.__init__ (GetCell) is embedded
  structurally: CellSpec records which cells are wrapped in a
  DropoutWrapper and with which input/output keep probabilities.
* CharCNN builds a TensorFlow graph of convolutions and poolings whose
  construction fails on shape mismatches; its shape computation is
  embedded (conv2dValid, maxPoolValidH, squeezeAll, charCNNBuild),
  VALID convolution/pooling and tf.squeeze/set_shape following the
  TensorFlow collaborator's documented shape rules.
-/
import Mathlib

/-! ### Python slice and list-building helpers -/

/-- Python slice xs[:n] including the negative-bound case:
for n ≥ 0 it is the first n elements, for n < 0 it drops the last |n|. -/
def pyTake (n : Int) (xs : List α) : List α :=
  if 0 ≤ n then xs.take n.toNat else xs.take (xs.length - (-n).toNat)

/-- Builds a list from fallible per-element results, failing (like a
Python loop that raises) as soon as one element fails. -/
def mapOption (f : α → Option β) : List α → Option (List β)
  | [] => some []
  | a :: as => do
    let b ← f a
    let bs ← mapOption f as
    return b :: bs

/-! ### Char2Vec.MakeMat -/

/-- The start-of-word sentinel symbol. -/
def startTok : String := "<S>"

/-- The end/pad-of-word sentinel symbol. -/
def endTok : String := "</S>"

/-- One iteration of the MakeMat loop body (char2vec.py lines 91-97):
look up every grapheme of the word, put the start sentinel in front of
the content truncated to pad_len-2 units, append the end sentinel, and
right-pad with the end sentinel up to pad_len. -/
def makeMatRow (vocab : String → Option Nat) (seg : String → List String)
    (padLen : Nat) (word : String) : Option (List Nat) := do
  let wordIdx0 ← mapOption vocab (seg word)
  let s ← vocab startTok
  let e ← vocab endTok
  let wordIdx := s :: (pyTake ((padLen : Int) - 2) wordIdx0 ++ [e])
  return if wordIdx.length < padLen
         then wordIdx ++ List.replicate (padLen - wordIdx.length) e
         else wordIdx

/-- Char2Vec.MakeMat (char2vec.py lines 71-102) for an explicit pad
length: the padded rows together with the length vector
min(pad_len, len(word)+2).  len(word) is the raw character count of the
word, independent of how the segmentation collaborator splits it. -/
def makeMat (vocab : String → Option Nat) (seg : String → List String)
    (padLen : Nat) (wordList : List String) :
    Option (List (List Nat) × List Nat) :=
  (mapOption (makeMatRow vocab seg padLen) wordList).map
    (fun theWords => (theWords, wordList.map (fun w => min padLen (w.length + 2))))

/-- The concrete vocabulary of the spec's scenario example:
<S> ↦ 0, </S> ↦ 1, a ↦ 2, b ↦ 3, everything else absent. -/
def testVocab : String → Option Nat := fun c =>
  if c = startTok then some 0
  else if c = endTok then some 1
  else if c = "a" then some 2
  else if c = "b" then some 3
  else none

/-- Character-level segmentation: one grapheme unit per character. -/
def testSeg : String → List String := fun w =>
  w.toList.map (fun c => String.mk [c])

/-- A segmentation producing two grapheme units per character, so that
the grapheme count differs from the raw character count. -/
def segDouble : String → List String := fun w => testSeg w ++ testSeg w

/-! ### Char2Vec.GetBatchVocab -/

/-- Sorted-insert without duplicates, the building block used to embed
np.unique (sorted distinct values of the input). -/
def insertUnique (x : Nat) : List Nat → List Nat
  | [] => [x]
  | y :: ys =>
    if x = y then y :: ys
    else if x < y then x :: y :: ys
    else y :: insertUnique x ys

/-- np.unique: the sorted list of distinct values. -/
def npUnique (xs : List Nat) : List Nat := xs.foldr insertUnique []

/-- np.place on one row: where the original row equals v, the current
row is overwritten with newVal (the mask is computed from the original
row, exactly as the source computes words == batch_vocab[i] against the
unmodified words). -/
def npPlace (origRow curRow : List Nat) (v newVal : Nat) : List Nat :=
  (origRow.zip curRow).map (fun p => if p.1 = v then newVal else p.2)

/-- np.place on a matrix, rowwise. -/
def npPlaceMat (orig cur : List (List Nat)) (v newVal : Nat) : List (List Nat) :=
  (orig.zip cur).map (fun p => npPlace p.1 p.2 v newVal)

/-- Index of the first occurrence of a value in a list. -/
def idxOf (x : Nat) : List Nat → Nat
  | [] => 0
  | y :: ys => if y = x then 0 else idxOf x ys + 1

/-- Char2Vec.GetBatchVocab (char2vec.py lines 104-110): the distinct
sorted values of the batch together with the batch remapped through the
np.place loop over the distinct values. -/
def GetBatchVocab (words : List (List Nat)) : List Nat × List (List Nat) :=
  let batchVocab := npUnique words.flatten
  let wordsRemapped := (List.range batchVocab.length).foldl
    (fun cur i => npPlaceMat words cur (batchVocab.getD i 0) i) words
  (batchVocab, wordsRemapped)

/-! ### CharLSTM forward computation

Tensors are embedded as functions: a time-major sequence of batch rows
is t ↦ b ↦ value.  LSTM cells are abstract step functions
state → input → output × state, matching the batched TensorFlow cells,
which act on each batch row independently. -/

/-- State after t steps of tf.nn.rnn with a sequence_length argument
(used for layer 1): the cell steps while t < L and the state is copied
through unchanged once the row's true length L is exhausted. -/
def maskedState {S A O : Type} (cell : S → A → O × S) (s0 : S)
    (x : Nat → A) (L : Nat) : Nat → S
  | 0 => s0
  | t + 1 =>
    if t < L then (cell (maskedState cell s0 x L t) (x t)).2
    else maskedState cell s0 x L t

/-- Output at step t of tf.nn.rnn with a sequence_length argument: the
cell output while t < L, and the zero output for t ≥ L. -/
def maskedOutput {S A O : Type} (cell : S → A → O × S) (zo : O) (s0 : S)
    (x : Nat → A) (L t : Nat) : O :=
  if t < L then (cell (maskedState cell s0 x L t) (x t)).1 else zo

/-- State after t steps of tf.nn.rnn without a sequence_length argument
(used for layer 2, char2vec.py lines 211 and 216). -/
def rnnState {S A O : Type} (cell : S → A → O × S) (s0 : S)
    (x : Nat → A) : Nat → S
  | 0 => s0
  | t + 1 => (cell (rnnState cell s0 x t) (x t)).2

/-- Output at step t of tf.nn.rnn without a sequence_length argument. -/
def rnnOutput {S A O : Type} (cell : S → A → O × S) (s0 : S)
    (x : Nat → A) (t : Nat) : O :=
  (cell (rnnState cell s0 x t) (x t)).1

/-- reverse_seq (char2vec.py lines 307-327, tf.reverse_sequence along
the time dimension): row b is reversed on its first lens b timesteps and
left in place beyond them. -/
def reverseSeq {α : Type} (x : Nat → Nat → α) (lens : Nat → Nat)
    (t b : Nat) : α :=
  if t < lens b then x (lens b - 1 - t) b else x t b

/-- The abstract parameters of the CharLSTM graph: the character
embedding table, the two layer-1 cells with their zero output and
initial state, the two layer-2 cells with their initial state, and the
final projection by out_mat. -/
structure LSTMParams (A O1 S1 O2 S2 E : Type) where
  emb : Nat → A
  cell1fw : S1 → A → O1 × S1
  cell1bw : S1 → A → O1 × S1
  zero1 : O1
  init1 : S1
  cell2fw : S2 → O1 × O1 → O2 × S2
  cell2bw : S2 → O1 × O1 → O2 × S2
  init2 : S2
  outMat : O2 × O2 → E

/-- Character embedding lookup of the id matrix, split time-major
(char2vec.py lines 185-191): inputs t b is the embedding of the id of
word b at timestep t. -/
def lstmInputs {A O1 S1 O2 S2 E : Type} (P : LSTMParams A O1 S1 O2 S2 E)
    (ids : Nat → Nat → Nat) (t b : Nat) : A :=
  P.emb (ids b t)

/-- Layer-1 forward outputs of tf.nn.rnn.bidirectional_rnn with
sequence_length (char2vec.py lines 197-199). -/
def out1fw {A O1 S1 O2 S2 E : Type} (P : LSTMParams A O1 S1 O2 S2 E)
    (lens : Nat → Nat) (ids : Nat → Nat → Nat) (t b : Nat) : O1 :=
  maskedOutput P.cell1fw P.zero1 P.init1 (fun u => lstmInputs P ids u b) (lens b) t

/-- The backward half of bidirectional_rnn before re-reversal: a masked
forward pass of the backward cell over the reversed inputs. -/
def bwTmp {A O1 S1 O2 S2 E : Type} (P : LSTMParams A O1 S1 O2 S2 E)
    (lens : Nat → Nat) (ids : Nat → Nat → Nat) (t b : Nat) : O1 :=
  maskedOutput P.cell1bw P.zero1 P.init1
    (fun u => reverseSeq (lstmInputs P ids) lens u b) (lens b) t

/-- Layer-1 backward outputs: the reversed-input pass re-reversed. -/
def out1bw {A O1 S1 O2 S2 E : Type} (P : LSTMParams A O1 S1 O2 S2 E)
    (lens : Nat → Nat) (ids : Nat → Nat → Nat) (t b : Nat) : O1 :=
  reverseSeq (bwTmp P lens ids) lens t b

/-- Layer-1 output: per-timestep concatenation of the two directions,
embedded as a pair. -/
def out1 {A O1 S1 O2 S2 E : Type} (P : LSTMParams A O1 S1 O2 S2 E)
    (lens : Nat → Nat) (ids : Nat → Nat → Nat) (t b : Nat) : O1 × O1 :=
  (out1fw P lens ids t b, out1bw P lens ids t b)

/-- Layer-2 forward outputs (char2vec.py line 211): an unmasked rnn pass
of layer2_fw over the layer-1 outputs. -/
def outputsForward {A O1 S1 O2 S2 E : Type} (P : LSTMParams A O1 S1 O2 S2 E)
    (lens : Nat → Nat) (ids : Nat → Nat → Nat) (t b : Nat) : O2 :=
  rnnOutput P.cell2fw P.init2 (fun u => out1 P lens ids u b) t

/-- The layer-1 outputs reversed per row (char2vec.py line 215). -/
def out1Rev {A O1 S1 O2 S2 E : Type} (P : LSTMParams A O1 S1 O2 S2 E)
    (lens : Nat → Nat) (ids : Nat → Nat → Nat) (t b : Nat) : O1 × O1 :=
  reverseSeq (out1 P lens ids) lens t b

/-- Layer-2 backward outputs (char2vec.py line 216): an unmasked rnn
pass of layer2_bw over the reversed layer-1 outputs. -/
def outputsBackward {A O1 S1 O2 S2 E : Type} (P : LSTMParams A O1 S1 O2 S2 E)
    (lens : Nat → Nat) (ids : Nat → Nat → Nat) (t b : Nat) : O2 :=
  rnnOutput P.cell2bw P.init2 (fun u => out1Rev P lens ids u b) t

/-- The gather positions (char2vec.py line 209):
slices = batch_dim * (seq_lens - 1) + batch_range. -/
def slices (B : Nat) (lens : Nat → Nat) (b : Nat) : Nat :=
  B * (lens b - 1) + b

/-- tf.reshape(tf.pack(outputs), [-1, hidden_size]): the time-major
stack of per-timestep batch rows flattened to one long table, with flat
position p holding row p % B of timestep p / B. -/
def flattenTB {α : Type} (B : Nat) (x : Nat → Nat → α) (p : Nat) : α :=
  x (p / B) (p % B)

/-- CharLSTM._GetLastOutput (char2vec.py lines 226-229): gather rows of
the flattened output table at the slices positions. -/
def getLastOutput {α : Type} (B : Nat) (x : Nat → Nat → α)
    (sl : Nat → Nat) (b : Nat) : α :=
  flattenTB B x (sl b)

/-- The gathered final forward-direction output per word. -/
def outForward {A O1 S1 O2 S2 E : Type} (P : LSTMParams A O1 S1 O2 S2 E)
    (B : Nat) (lens : Nat → Nat) (ids : Nat → Nat → Nat) (b : Nat) : O2 :=
  getLastOutput B (outputsForward P lens ids) (slices B lens) b

/-- The gathered final backward-direction output per word. -/
def outBackward {A O1 S1 O2 S2 E : Type} (P : LSTMParams A O1 S1 O2 S2 E)
    (B : Nat) (lens : Nat → Nat) (ids : Nat → Nat → Nat) (b : Nat) : O2 :=
  getLastOutput B (outputsBackward P lens ids) (slices B lens) b

/-- The word embeddings (char2vec.py lines 220-224): concatenation of
the two gathered direction outputs projected through out_mat. -/
def wordEmbeddings {A O1 S1 O2 S2 E : Type} (P : LSTMParams A O1 S1 O2 S2 E)
    (B : Nat) (lens : Nat → Nat) (ids : Nat → Nat → Nat) (b : Nat) : E :=
  P.outMat (outForward P B lens ids b, outBackward P B lens ids b)

/-- A concrete instantiation of the abstract LSTM parameters over Nat,
used to evaluate the model on concrete inputs. -/
def testParams : LSTMParams Nat Nat Nat Nat Nat Nat where
  emb := fun i => i + 1
  cell1fw := fun s a => (s + a, s + 2 * a)
  cell1bw := fun s a => (2 * s + a, s + a)
  zero1 := 0
  init1 := 0
  cell2fw := fun s p => (s + 3 * p.1 + p.2, s + p.1)
  cell2bw := fun s p => (s + p.1 + 5 * p.2, s + p.2)
  init2 := 0
  outMat := fun p => 1000 * p.1 + p.2

/-! ### CharLSTM cell construction (dropout wiring)

The model_params mapping consumed by the encoders. -/

structure ModelParams where
  wordEmbedDims : Nat
  c2vLayer1HiddenSize : Nat
  c2vLayer1OutSize : Nat
  c2vLayer2HiddenSize : Nat
  peepholes : Bool

/-- The recurrent-cell graph structure built by CharLSTM.__init__: a
bare LSTMCell, or a cell wrapped in tf.nn.rnn.rnn_cell.DropoutWrapper
carrying the configured output and input keep probabilities (a missing
keep probability is none). -/
inductive CellSpec where
  | lstm (hiddenSize : Nat) (numProj : Option Nat) (usePeepholes : Bool)
  | dropoutWrapper (inner : CellSpec) (outputKeepProb : Option ℚ) (inputKeepProb : Option ℚ)

/-- GetCell (char2vec.py lines 152-159): an LSTMCell wrapped in a
DropoutWrapper whose output_keep_prob AND input_keep_prob are both the
configured dropout keep probability. -/
def GetCell (dropoutKeepProb : Option ℚ) (hiddenSize : Nat) (numProj : Option Nat)
    (usePeepholes : Bool) : CellSpec :=
  CellSpec.dropoutWrapper (CellSpec.lstm hiddenSize numProj usePeepholes)
    dropoutKeepProb dropoutKeepProb

structure CharLSTMCellSpecs where
  layer1fw : CellSpec
  layer1bw : CellSpec
  layer2fw : CellSpec
  layer2bw : CellSpec

/-- The four cells built by CharLSTM.__init__ (char2vec.py lines
161-174): layer 1 through GetCell (so through a DropoutWrapper), layer 2
as bare LSTMCells with no projection and no wrapper. -/
def charLSTMCellSpecs (mp : ModelParams) (dropoutKeepProb : Option ℚ) :
    CharLSTMCellSpecs where
  layer1fw := GetCell dropoutKeepProb mp.c2vLayer1HiddenSize
    (some mp.c2vLayer1OutSize) mp.peepholes
  layer1bw := GetCell dropoutKeepProb mp.c2vLayer1HiddenSize
    (some mp.c2vLayer1OutSize) mp.peepholes
  layer2fw := CellSpec.lstm mp.c2vLayer2HiddenSize none mp.peepholes
  layer2bw := CellSpec.lstm mp.c2vLayer2HiddenSize none mp.peepholes

/-- A keep probability is configured for the inputs of some wrapper in
the cell (the DropoutWrapper applies dropout to the wrapped cell's
inputs when input_keep_prob is supplied). -/
def hasInputDropout : CellSpec → Bool
  | CellSpec.lstm _ _ _ => false
  | CellSpec.dropoutWrapper inner _ ikp => ikp.isSome || hasInputDropout inner

/-- A keep probability is configured for the outputs of some wrapper in
the cell. -/
def hasOutputDropout : CellSpec → Bool
  | CellSpec.lstm _ _ _ => false
  | CellSpec.dropoutWrapper inner okp _ => okp.isSome || hasOutputDropout inner

/-- Some dropout keep probability is configured anywhere in the cell. -/
def hasDropout (c : CellSpec) : Bool :=
  hasInputDropout c || hasOutputDropout c

/-- A concrete model_params instance. -/
def testModelParams : ModelParams where
  wordEmbedDims := 10
  c2vLayer1HiddenSize := 8
  c2vLayer1OutSize := 6
  c2vLayer2HiddenSize := 7
  peepholes := true

/-! ### CharCNN construction (shape computation)

The CharCNN graph is built from tf.nn.conv2d / tf.nn.max_pool with
VALID padding, tf.squeeze, set_shape, tf.concat and tf.matmul; building
it fails with a dimension/shape error when any of their shape rules is
violated.  Shapes are tracked without the (symbolically unknown) batch
dimension: a Shape3 is (time, width, channels). -/

structure Shape3 where
  h : Nat
  w : Nat
  c : Nat
deriving DecidableEq

/-- tf.nn.conv2d with VALID padding: the filter (fh, fw, inC, outC) must
fit inside the input and match its channel count, and the output shape
is (h - fh + 1, w - fw + 1, outC). -/
def conv2dValid (input : Shape3) (fh fw inC outC : Nat) : Option Shape3 :=
  if 1 ≤ fh ∧ 1 ≤ fw ∧ 1 ≤ outC ∧ fh ≤ input.h ∧ fw ≤ input.w ∧ input.c = inC then
    some (Shape3.mk (input.h - fh + 1) (input.w - fw + 1) outC)
  else none

/-- tf.nn.max_pool with VALID padding and window (1, kh, 1, 1): the
window must be nonempty and fit inside the input. -/
def maxPoolValidH (input : Shape3) (kh : Nat) : Option Shape3 :=
  if 1 ≤ kh ∧ kh ≤ input.h then some (Shape3.mk (input.h - kh + 1) input.w input.c)
  else none

/-- tf.squeeze on the known (non-batch) dimensions: drops every
dimension equal to 1. -/
def squeezeAll (dims : List Nat) : List Nat := dims.filter (fun d => d ≠ 1)

/-- The second-stage kernel widths, range(3, 6). -/
def filterSizes : List Nat := [3, 4, 5]

/-- One iteration of the width loop (char2vec.py lines 273-281): a
width-w VALID convolution over the layer-1 activation of shape
(max_sequence_len - 2, layer1_out_size, 1) followed by a VALID max-pool
with window max_sequence_len - 1 - width. -/
def convPool (mp : ModelParams) (maxSequenceLen width : Nat) : Option Shape3 :=
  match conv2dValid (Shape3.mk (maxSequenceLen - 2) mp.c2vLayer1OutSize 1) width
      mp.c2vLayer1OutSize 1 mp.c2vLayer2HiddenSize with
  | none => none
  | some conv2 => maxPoolValidH conv2 (maxSequenceLen - 1 - width)

/-- tf.concat along the channel dimension: all shapes must agree on the
other dimensions and the channel counts add up. -/
def concatChannels : List Shape3 → Option Shape3
  | [] => none
  | s :: rest => rest.foldlM (fun acc t =>
      if t.h = acc.h ∧ t.w = acc.w then some (Shape3.mk acc.h acc.w (acc.c + t.c))
      else none) s

/-- The shape computation of CharCNN.__init__ (char2vec.py lines
239-296), returning the embedding dimension on success and none when
any shape rule is violated: first a width-3 convolution over the
character embeddings (h: max_sequence_len, w: char_embed_dims), whose
squeezed output must match the asserted set_shape
(None, max_sequence_len - 2, layer1_out_size); then one convPool per
width in filterSizes; then channel concatenation, the squeeze of the two
collapsed dimensions, and the residual matmul by the square matrix t_mat
of size len(filter_sizes) * hidden_size.  (The dropout between the two
stages and the bias adds and relus preserve shapes and are omitted;
word_embed_dims is read by the source but never used.) -/
def charCNNBuild (mp : ModelParams) (maxSequenceLen charEmbedDims : Nat) : Option Nat :=
  match conv2dValid (Shape3.mk maxSequenceLen charEmbedDims 1) 3 charEmbedDims 1
      mp.c2vLayer1OutSize with
  | none => none
  | some conv1 =>
    if squeezeAll [conv1.h, conv1.w, conv1.c] =
        [maxSequenceLen - 2, mp.c2vLayer1OutSize] then
      match mapOption (convPool mp maxSequenceLen) filterSizes with
      | none => none
      | some pools =>
        match concatChannels pools with
        | none => none
        | some cs =>
          if cs.h = 1 ∧ cs.w = 1 ∧ cs.c = filterSizes.length * mp.c2vLayer2HiddenSize
          then some (filterSizes.length * mp.c2vLayer2HiddenSize)
          else none
    else none

/-! ### Lemmas about mapOption -/

theorem mapOption_nil (f : α → Option β) : mapOption f [] = some [] := rfl

theorem mapOption_cons (f : α → Option β) (a : α) (as : List α) :
    mapOption f (a :: as) =
      (f a).bind (fun b => (mapOption f as).bind (fun bs => some (b :: bs))) := rfl

theorem mapOption_some_mem {f : α → Option β} :
    ∀ {l : List α} {l2 : List β}, mapOption f l = some l2 →
      ∀ b ∈ l2, ∃ a ∈ l, f a = some b := by
  intro l
  induction l with
  | nil => intro l2 h b hb; simp [mapOption] at h; subst h; simp at hb
  | cons a as ih =>
    intro l2 h b hb
    rw [mapOption_cons] at h
    rcases Option.bind_eq_some.1 h with ⟨b0, hb0, h2⟩
    rcases Option.bind_eq_some.1 h2 with ⟨bs, hbs, h3⟩
    rcases Option.some.inj h3 with rfl
    rcases List.mem_cons.1 hb with rfl | hmem
    · exact ⟨a, List.mem_cons_self a as, hb0⟩
    · rcases ih hbs b hmem with ⟨a2, ha2, hfa2⟩
      exact ⟨a2, List.mem_cons_of_mem a ha2, hfa2⟩

theorem mapOption_some_of_mem {f : α → Option β} :
    ∀ {l : List α} {l2 : List β}, mapOption f l = some l2 →
      ∀ a ∈ l, ∃ b, f a = some b := by
  intro l
  induction l with
  | nil => intro l2 _ a ha; simp at ha
  | cons x xs ih =>
    intro l2 h a ha
    rw [mapOption_cons] at h
    rcases Option.bind_eq_some.1 h with ⟨b0, hb0, h2⟩
    rcases Option.bind_eq_some.1 h2 with ⟨bs, hbs, _⟩
    rcases List.mem_cons.1 ha with rfl | hmem
    · exact ⟨b0, hb0⟩
    · exact ih hbs a hmem

theorem mapOption_none_of_mem {f : α → Option β} {l : List α} {a : α}
    (ha : a ∈ l) (hf : f a = none) : mapOption f l = none := by
  induction l with
  | nil => simp at ha
  | cons x xs ih =>
    rcases List.mem_cons.1 ha with rfl | hmem
    · rw [mapOption_cons, hf]; rfl
    · rw [mapOption_cons]
      cases hx : f x with
      | none => rfl
      | some b => rw [ih hmem]; rfl

/-! ### Lemmas about makeMatRow / makeMat -/

theorem pyTake_nonneg {n : Int} (h : 0 ≤ n) (xs : List α) :
    pyTake n xs = xs.take n.toNat := by
  simp [pyTake, h]

theorem pad_if_eq (l : List Nat) (p : Nat) (e : Nat) :
    (if l.length < p then l ++ List.replicate (p - l.length) e else l) =
      l ++ List.replicate (p - l.length) e := by
  split
  · rfl
  · rw [Nat.sub_eq_zero_of_le (Nat.le_of_not_lt (by assumption))]
    simp

/-- Closed form of a successful makeMatRow when pad_len ≥ 2: the start
sentinel, the grapheme ids truncated to pad_len-2, the end sentinel, and
end-sentinel padding up to pad_len. -/
theorem makeMatRow_eq {vocab : String → Option Nat} {seg : String → List String}
    {padLen : Nat} {w : String} {s e : Nat} {ids : List Nat}
    (hpad : 2 ≤ padLen)
    (hids : mapOption vocab (seg w) = some ids)
    (hs : vocab startTok = some s) (he : vocab endTok = some e) :
    makeMatRow vocab seg padLen w =
      some ((s :: (ids.take (padLen - 2) ++ [e])) ++
        List.replicate (padLen - (2 + min (padLen - 2) ids.length)) e) := by
  have hnn : (0 : Int) ≤ (padLen : Int) - 2 := by omega
  have htn : ((padLen : Int) - 2).toNat = padLen - 2 := by omega
  unfold makeMatRow
  rw [hids, hs, he]
  simp only [Option.some_bind, pyTake_nonneg hnn, htn, pad_if_eq]
  simp [List.length_take]
  omega

/-- A successful makeMatRow exposes the lookups and the row shape. -/
theorem makeMatRow_some_ex {vocab : String → Option Nat} {seg : String → List String}
    {padLen : Nat} {w : String} {row : List Nat}
    (h : makeMatRow vocab seg padLen w = some row) :
    ∃ ids s e, mapOption vocab (seg w) = some ids ∧
      vocab startTok = some s ∧ vocab endTok = some e ∧
      row = (s :: (pyTake ((padLen : Int) - 2) ids ++ [e])) ++
        List.replicate (padLen - (s :: (pyTake ((padLen : Int) - 2) ids ++ [e])).length) e := by
  unfold makeMatRow at h
  rcases Option.bind_eq_some.1 h with ⟨ids, hids, h2⟩
  rcases Option.bind_eq_some.1 h2 with ⟨s, hs, h3⟩
  rcases Option.bind_eq_some.1 h3 with ⟨e, he, h4⟩
  refine ⟨ids, s, e, hids, hs, he, ?_⟩
  rcases Option.some.inj h4 with rfl
  rw [pad_if_eq]

theorem makeMatRow_length {vocab : String → Option Nat} {seg : String → List String}
    {padLen : Nat} {w : String} {row : List Nat}
    (hpad : 2 ≤ padLen) (h : makeMatRow vocab seg padLen w = some row) :
    row.length = padLen := by
  rcases makeMatRow_some_ex h with ⟨ids, s, e, hids, _, _, hrow⟩
  have hnn : (0 : Int) ≤ (padLen : Int) - 2 := by omega
  have htn : ((padLen : Int) - 2).toNat = padLen - 2 := by omega
  subst hrow
  rw [pyTake_nonneg hnn, htn]
  have hm : min (padLen - 2) ids.length ≤ padLen - 2 :=
    Nat.min_le_left (padLen - 2) ids.length
  simp only [List.length_append, List.length_cons, List.length_take,
    List.length_replicate, List.length_nil]
  omega

theorem makeMatRow_head {vocab : String → Option Nat} {seg : String → List String}
    {padLen : Nat} {w : String} {row : List Nat} {s : Nat}
    (h : makeMatRow vocab seg padLen w = some row) (hs : vocab startTok = some s) :
    row.head? = some s := by
  rcases makeMatRow_some_ex h with ⟨ids, s2, e, _, hs2, _, hrow⟩
  rcases Option.some.inj (hs.symm.trans hs2) with rfl
  subst hrow
  rfl

theorem makeMat_some_ex {vocab : String → Option Nat} {seg : String → List String}
    {padLen : Nat} {words : List String} {m : List (List Nat)} {lens : List Nat}
    (h : makeMat vocab seg padLen words = some (m, lens)) :
    mapOption (makeMatRow vocab seg padLen) words = some m ∧
      lens = words.map (fun w => min padLen (w.length + 2)) := by
  unfold makeMat at h
  rcases Option.map_eq_some'.1 h with ⟨rows, hrows, hpair⟩
  rcases hpair
  exact ⟨hrows, rfl⟩

/-! ### Claim C1 -/

/-- C1, counterexample.  The claim quantifies over every pad_len, but at
pad_len = 1 the code builds the row start-sentinel ++ word_idx[:-1] ++
end-sentinel, which always has at least 2 entries: for the empty word the
returned row is [0, 1] of length 2 ≠ 1 (the recorded length vector entry
is min(1, 0+2) = 1). -/
theorem c1_counterexample :
    makeMat testVocab testSeg 1 [""] = some ([[0, 1]], [1]) ∧
      ([0, 1] : List Nat).length ≠ 1 := by
  constructor
  · decide
  · decide

/-- C1, amended: for every word list and every pad_len ≥ 2, whenever
MakeMat succeeds, each returned row has length exactly pad_len, each
row's first entry is the start-sentinel id, and the length vector is
min(pad_len, len(word_i)+2) entrywise.  (For pad_len < 2 the rows can be
longer than pad_len, see the counterexample.) -/
theorem c1_makemat_shape
    (vocab : String → Option Nat) (seg : String → List String)
    (padLen : Nat) (words : List String) (m : List (List Nat)) (lens : List Nat)
    (hpad : 2 ≤ padLen)
    (hmk : makeMat vocab seg padLen words = some (m, lens)) :
    (∀ row ∈ m, row.length = padLen) ∧
      (∀ s, vocab startTok = some s → ∀ row ∈ m, row.head? = some s) ∧
      lens = words.map (fun w => min padLen (w.length + 2)) := by
  rcases makeMat_some_ex hmk with ⟨hrows, hlens⟩
  refine ⟨?_, ?_, hlens⟩
  · intro row hrow
    rcases mapOption_some_mem hrows row hrow with ⟨w, _, hw⟩
    exact makeMatRow_length hpad hw
  · intro s hs row hrow
    rcases mapOption_some_mem hrows row hrow with ⟨w, _, hw⟩
    exact makeMatRow_head hw hs

/-- C1, witness: the amended theorem applied to the spec's scenario
(vocabulary {<S>:0, </S>:1, a:2, b:3}, pad_len 5, word list ["ab"]). -/
theorem c1_makemat_shape_witness :
    ([0, 2, 3, 1, 1] : List Nat).length = 5 ∧
      ([0, 2, 3, 1, 1] : List Nat).head? = some 0 ∧
      [4] = (["ab"].map (fun w => min 5 (w.length + 2))) := by
  have h := c1_makemat_shape testVocab testSeg 5 ["ab"] [[0, 2, 3, 1, 1]] [4]
    (by decide) (by decide)
  exact ⟨h.1 [0, 2, 3, 1, 1] (by decide), h.2.1 0 (by decide) [0, 2, 3, 1, 1] (by decide),
    h.2.2⟩

/-! ### Claim C5 -/

/-- C5.  Boundary behaviour of MakeMat, for a segmentation that yields
one vocabulary unit per character of the word (so that the word's length
is its unit count): a word of length exactly pad_len - 2 fills every
non-sentinel slot with content and no pad character is appended; a word
of length pad_len - 1 or more is truncated to pad_len - 2 units and its
length-vector entry min(pad_len, len+2) equals pad_len; and concretely,
with the vocabulary {<S>:0, </S>:1, a:2, b:3} and pad_len = 5, the word
"abba" yields the row [0, 2, 3, 3, 1] and recorded length 5. -/
theorem c5_boundary :
    (∀ (vocab : String → Option Nat) (seg : String → List String)
        (padLen : Nat) (w : String) (s e : Nat) (ids : List Nat),
      2 ≤ padLen → vocab startTok = some s → vocab endTok = some e →
      mapOption vocab (seg w) = some ids → ids.length = w.length →
      w.length = padLen - 2 →
      makeMatRow vocab seg padLen w = some (s :: (ids ++ [e])) ∧
        (s :: (ids ++ [e])).length = padLen) ∧
    (∀ (vocab : String → Option Nat) (seg : String → List String)
        (padLen : Nat) (w : String) (s e : Nat) (ids : List Nat),
      2 ≤ padLen → vocab startTok = some s → vocab endTok = some e →
      mapOption vocab (seg w) = some ids → ids.length = w.length →
      padLen - 1 ≤ w.length →
      makeMatRow vocab seg padLen w = some (s :: (ids.take (padLen - 2) ++ [e])) ∧
        min padLen (w.length + 2) = padLen) ∧
    makeMat testVocab testSeg 5 ["abba"] = some ([[0, 2, 3, 3, 1]], [5]) := by
  refine ⟨?_, ?_, by decide⟩
  · intro vocab seg padLen w s e ids hpad hs he hids hlen hexact
    have hrow := makeMatRow_eq hpad hids hs he
    have hidlen : ids.length = padLen - 2 := by omega
    have hmin : min (padLen - 2) ids.length = padLen - 2 := by omega
    have htake : ids.take (padLen - 2) = ids := by
      rw [← hidlen]; exact List.take_length ids
    rw [hrow, htake, hmin]
    have hrep : padLen - (2 + (padLen - 2)) = 0 := by omega
    rw [hrep]
    constructor
    · simp
    · simp
      omega
  · intro vocab seg padLen w s e ids hpad hs he hids hlen hlong
    have hrow := makeMatRow_eq hpad hids hs he
    have hmin : min (padLen - 2) ids.length = padLen - 2 := by omega
    rw [hrow, hmin]
    have hrep : padLen - (2 + (padLen - 2)) = 0 := by omega
    rw [hrep]
    constructor
    · simp
    · omega

/-- C5, witness: the boundary statements applied to the words "aba"
(length exactly pad_len - 2) and "abba" (length pad_len - 1) at
pad_len 5 over the scenario vocabulary. -/
theorem c5_boundary_witness :
    makeMatRow testVocab testSeg 5 "aba" = some (0 :: ([2, 3, 2] ++ [1])) ∧
      makeMatRow testVocab testSeg 5 "abba" =
        some (0 :: (([2, 3, 3, 2] : List Nat).take 3 ++ [1])) ∧
      min 5 ("abba".length + 2) = 5 := by
  have h1 := (c5_boundary.1 testVocab testSeg 5 "aba" 0 1 [2, 3, 2]
    (by decide) (by decide) (by decide) (by decide) (by decide) (by decide)).1
  have h2 := c5_boundary.2.1 testVocab testSeg 5 "abba" 0 1 [2, 3, 3, 2]
    (by decide) (by decide) (by decide) (by decide) (by decide) (by decide)
  exact ⟨h1, h2.1, h2.2⟩

/-! ### Claim C9 -/

/-- C9, counterexample.  The claim says an empty word list surfaces a
lookup failure at batch-construction time; in fact MakeMat's loop body
never runs on an empty word list and it successfully returns an empty
matrix and empty length vector. -/
theorem c9_counterexample :
    makeMat testVocab testSeg 5 ([] : List String) = some ([], []) ∧
      makeMat testVocab testSeg 5 ([] : List String) ≠ none := by
  constructor
  · decide
  · decide

/-- C9, amended: a word containing a grapheme absent from the vocabulary
surfaces a lookup failure at batch-construction time, and no
unknown-token id is substituted unless the vocabulary collaborator
itself resolves the grapheme; an empty word list however does not fail:
MakeMat returns empty outputs. -/
theorem c9_unknown_grapheme :
    (∀ (vocab : String → Option Nat) (seg : String → List String)
        (padLen : Nat) (words : List String) (w g : String),
      w ∈ words → g ∈ seg w → vocab g = none →
      makeMat vocab seg padLen words = none) ∧
    (∀ (vocab : String → Option Nat) (seg : String → List String) (padLen : Nat),
      makeMat vocab seg padLen ([] : List String) = some ([], [])) := by
  constructor
  · intro vocab seg padLen words w g hw hg hv
    have hrow : makeMatRow vocab seg padLen w = none := by
      unfold makeMatRow
      rw [mapOption_none_of_mem hg hv]
      rfl
    unfold makeMat
    rw [mapOption_none_of_mem hw hrow]
    rfl
  · intro vocab seg padLen
    rfl

/-- C9, witness: the word "z" whose only grapheme is absent from the
scenario vocabulary makes MakeMat fail. -/
theorem c9_unknown_grapheme_witness :
    makeMat testVocab testSeg 5 ["z"] = none :=
  c9_unknown_grapheme.1 testVocab testSeg 5 ["z"] "z" "z"
    (by decide) (by decide) (by decide)

/-! ### Claim C10 -/

/-- C10, counterexample.  The claim says that whenever the grapheme
count differs from len(word) the recorded length disagrees with the
position just past the last content symbol of the row.  With a
segmentation yielding two units per character, the word "aaa" at
pad_len 4 has grapheme count 6 ≠ 3 = len("aaa"), yet both the recorded
length min(4, 3+2) and the content end position 2 + min(6, 4-2) equal 4
because both counts are truncated. -/
theorem c10_counterexample :
    (segDouble "aaa").length = 6 ∧ ("aaa" : String).length = 3 ∧
      makeMat testVocab segDouble 4 ["aaa"] = some ([[0, 2, 2, 1]], [4]) ∧
      min 4 (("aaa" : String).length + 2) = 2 + min (4 - 2) (segDouble "aaa").length := by
  refine ⟨by decide, by decide, by decide, by decide⟩

/-- C10, amended: for pad_len ≥ 2, MakeMat records the length entry
min(pad_len, len(word)+2) computed from the raw character count, while
the row's content (both sentinels included) ends at position
2 + min(pad_len-2, g) where g is the grapheme count.  When g equals
len(word) the two agree; when min(pad_len-2, g) ≠ min(pad_len-2,
len(word)) they disagree.  (When g ≠ len(word) but both counts reach the
truncation threshold pad_len-2, both quantities equal pad_len and the
recorded length agrees with the content end despite the mismatch, see
the counterexample.) -/
theorem c10_length_vs_graphemes
    (vocab : String → Option Nat) (seg : String → List String)
    (padLen : Nat) (w : String) (s e : Nat) (ids : List Nat)
    (hpad : 2 ≤ padLen)
    (hs : vocab startTok = some s) (he : vocab endTok = some e)
    (hids : mapOption vocab (seg w) = some ids) :
    makeMat vocab seg padLen [w] =
      some ([(s :: (ids.take (padLen - 2) ++ [e])) ++
              List.replicate (padLen - (2 + min (padLen - 2) ids.length)) e],
            [min padLen (w.length + 2)]) ∧
      (ids.length = w.length →
        min padLen (w.length + 2) = (s :: (ids.take (padLen - 2) ++ [e])).length) ∧
      (min (padLen - 2) ids.length ≠ min (padLen - 2) w.length →
        min padLen (w.length + 2) ≠ (s :: (ids.take (padLen - 2) ++ [e])).length) := by
  have hrow := makeMatRow_eq hpad hids hs he
  have hclen : (s :: (ids.take (padLen - 2) ++ [e])).length =
      2 + min (padLen - 2) ids.length := by
    simp [List.length_take]
    omega
  refine ⟨?_, ?_, ?_⟩
  · unfold makeMat
    unfold mapOption
    rw [hrow]
    rfl
  · intro hlen
    rw [hclen]
    omega
  · intro hne
    rw [hclen]
    omega

theorem mem_insertUnique (x a : Nat) :
    ∀ l : List Nat, a ∈ insertUnique x l ↔ a = x ∨ a ∈ l := by
  intro l
  induction l with
  | nil => simp [insertUnique]
  | cons y ys ih =>
    by_cases hxy : x = y
    · subst hxy
      simp [insertUnique]
    · by_cases hlt : x < y
      · simp [insertUnique, hxy, hlt]
      · simp [insertUnique, hxy, hlt, ih]
        tauto

theorem sorted_insertUnique (x : Nat) :
    ∀ l : List Nat, List.Sorted (· < ·) l → List.Sorted (· < ·) (insertUnique x l) := by
  intro l
  induction l with
  | nil => intro _; simp [insertUnique]
  | cons y ys ih =>
    intro hs
    rcases List.sorted_cons.1 hs with ⟨hy, hys⟩
    by_cases hxy : x = y
    · subst hxy
      simpa [insertUnique] using hs
    · by_cases hlt : x < y
      · rw [insertUnique, if_neg hxy, if_pos hlt]
        refine List.sorted_cons.2 ⟨?_, hs⟩
        intro b hb
        rcases List.mem_cons.1 hb with rfl | hbys
        · exact hlt
        · exact lt_trans hlt (hy b hbys)
      · rw [insertUnique, if_neg hxy, if_neg hlt]
        refine List.sorted_cons.2 ⟨?_, ih hys⟩
        intro b hb
        rcases (mem_insertUnique x b ys).1 hb with rfl | hbys
        · omega
        · exact hy b hbys

theorem npUnique_sorted (xs : List Nat) : List.Sorted (· < ·) (npUnique xs) := by
  induction xs with
  | nil => simp [npUnique]
  | cons x xs ih => exact sorted_insertUnique x _ ih

theorem mem_npUnique (a : Nat) (xs : List Nat) : a ∈ npUnique xs ↔ a ∈ xs := by
  induction xs with
  | nil => simp [npUnique]
  | cons x xs ih =>
    show a ∈ insertUnique x (npUnique xs) ↔ _
    rw [mem_insertUnique, ih]
    simp

theorem npUnique_nodup (xs : List Nat) : (npUnique xs).Nodup :=
  (npUnique_sorted xs).nodup

theorem getD_idxOf {x : Nat} : ∀ {l : List Nat}, x ∈ l → l.getD (idxOf x l) 0 = x := by
  intro l
  induction l with
  | nil => intro h; simp at h
  | cons y ys ih =>
    intro h
    by_cases hyx : y = x
    · simp only [idxOf]
      rw [if_pos hyx, List.getD_cons_zero]
      exact hyx
    · have hmem : x ∈ ys := by
        rcases List.mem_cons.1 h with rfl | hys
        · exact absurd rfl hyx
        · exact hys
      simp only [idxOf]
      rw [if_neg hyx, List.getD_cons_succ]
      exact ih hmem

theorem idxOf_getD : ∀ {l : List Nat}, l.Nodup → ∀ {i : Nat}, i < l.length →
    idxOf (l.getD i 0) l = i := by
  intro l
  induction l with
  | nil => intro _ i hi; simp at hi
  | cons y ys ih =>
    intro hnd i hi
    rcases List.nodup_cons.1 hnd with ⟨hy, hys⟩
    cases i with
    | zero =>
      rw [List.getD_cons_zero]
      simp [idxOf]
    | succ j =>
      have hj : j < ys.length := by simpa using hi
      rw [List.getD_cons_succ]
      have hne : y ≠ ys.getD j 0 := by
        intro hcontra
        apply hy
        rw [hcontra, List.getD_eq_getElem ys 0 hj]
        exact List.getElem_mem hj
      simp only [idxOf]
      rw [if_neg hne, ih hys hj]

theorem npPlace_map (row : List Nat) (f : Nat → Nat) (v nv : Nat) :
    npPlace row (row.map f) v nv = row.map (fun x => if x = v then nv else f x) := by
  unfold npPlace
  have hzip := List.zip_map' id f row
  rw [List.map_id] at hzip
  rw [hzip, List.map_map]
  apply List.map_congr_left
  intro a _
  rfl

theorem npPlaceMat_map (orig : List (List Nat)) (g : List Nat → List Nat) (v nv : Nat) :
    npPlaceMat orig (orig.map g) v nv =
      orig.map (fun row => npPlace row (g row) v nv) := by
  unfold npPlaceMat
  have hzip := List.zip_map' id g orig
  rw [List.map_id] at hzip
  rw [hzip, List.map_map]
  apply List.map_congr_left
  intro a _
  rfl

/-- Closed form of the np.place loop: after the first n distinct values
have been placed, an entry whose original value is among those n carries
its index in the batch vocabulary, and is otherwise untouched. -/
theorem batchVocabFold_eq (orig : List (List Nat)) (bv : List Nat) (hnd : bv.Nodup) :
    ∀ n, n ≤ bv.length →
      (List.range n).foldl (fun cur i => npPlaceMat orig cur (bv.getD i 0) i) orig =
        orig.map (fun row => row.map (fun x => if x ∈ bv.take n then idxOf x bv else x)) := by
  intro n
  induction n with
  | zero =>
    intro _
    simp
  | succ k ih =>
    intro hk
    have hk2 : k < bv.length := by omega
    rw [List.range_succ, List.foldl_append, ih (by omega)]
    simp only [List.foldl_cons, List.foldl_nil]
    rw [npPlaceMat_map]
    have hrow : ∀ row : List Nat,
        npPlace row (row.map (fun x => if x ∈ bv.take k then idxOf x bv else x))
          (bv.getD k 0) k =
        row.map (fun x => if x ∈ bv.take (k + 1) then idxOf x bv else x) := by
      intro row
      rw [npPlace_map]
      apply List.map_congr_left
      intro x _
      have hbvk : bv.getD k 0 = bv[k] := List.getD_eq_getElem bv 0 hk2
      have htake : bv.take (k + 1) = bv.take k ++ [bv[k]] := by
        rw [List.take_succ]
        simp [List.getElem?_eq_getElem hk2]
      by_cases hx : x = bv.getD k 0
      · have hxk : idxOf (bv.getD k 0) bv = k := idxOf_getD hnd hk2
        have hmem : bv.getD k 0 ∈ bv.take (k + 1) := by
          rw [htake]
          apply List.mem_append_right
          rw [hbvk]
          exact List.mem_singleton.2 rfl
        rw [hx, if_pos rfl, if_pos hmem]
        exact hxk.symm
      · have hiff : (x ∈ bv.take k) ↔ (x ∈ bv.take (k + 1)) := by
          rw [htake]
          constructor
          · intro h
            exact List.mem_append_left _ h
          · intro h
            rcases List.mem_append.1 h with h2 | h2
            · exact h2
            · rw [List.mem_singleton, ← hbvk] at h2
              exact absurd h2 hx
        rw [if_neg hx]
        exact if_congr hiff rfl rfl
    exact List.map_congr_left (fun row _ => hrow row)

/-! ### Claim C2 -/

/-- C2.  GetBatchVocab returns a pair (distinct, remap) such that
indexing the distinct array by the remapped matrix reconstructs the
input exactly elementwise, the distinct list being the sorted,
duplicate-free list of the ids present in the batch. -/
theorem c2_batchvocab_roundtrip (words : List (List Nat)) :
    ((GetBatchVocab words).2.map (fun row =>
        row.map (fun j => (GetBatchVocab words).1.getD j 0)) = words) ∧
      List.Sorted (· < ·) (GetBatchVocab words).1 ∧
      (GetBatchVocab words).1.Nodup ∧
      (∀ x, x ∈ (GetBatchVocab words).1 ↔ x ∈ words.flatten) := by
  have hbv : (GetBatchVocab words).1 = npUnique words.flatten := rfl
  have hnd : (npUnique words.flatten).Nodup := npUnique_nodup words.flatten
  have hfold : (GetBatchVocab words).2 =
      words.map (fun row => row.map
        (fun x => if x ∈ npUnique words.flatten then idxOf x (npUnique words.flatten) else x)) := by
    show (List.range (npUnique words.flatten).length).foldl _ words = _
    rw [batchVocabFold_eq words (npUnique words.flatten) hnd
      (npUnique words.flatten).length (le_refl _), List.take_length]
  refine ⟨?_, npUnique_sorted words.flatten, hnd, fun x => mem_npUnique x words.flatten⟩
  rw [hfold, hbv, List.map_map]
  have hrows : ∀ row ∈ words,
      (row.map (fun x => if x ∈ npUnique words.flatten
          then idxOf x (npUnique words.flatten) else x)).map
        (fun j => (npUnique words.flatten).getD j 0) = row := by
    intro row hrow
    rw [List.map_map]
    have hpt : ∀ x ∈ row,
        ((fun j => (npUnique words.flatten).getD j 0) ∘
          (fun x => if x ∈ npUnique words.flatten
            then idxOf x (npUnique words.flatten) else x)) x = x := by
      intro x hx
      have hxf : x ∈ words.flatten := List.mem_flatten.2 ⟨row, hrow, hx⟩
      have hxbv : x ∈ npUnique words.flatten := (mem_npUnique x words.flatten).2 hxf
      simp only [Function.comp]
      rw [if_pos hxbv]
      exact getD_idxOf hxbv
    rw [List.map_congr_left hpt]
    simp
  refine (List.map_congr_left ?_).trans (List.map_id words)
  intro row hrow
  exact hrows row hrow

/-- C10, witness: agreement for the character-level segmentation of
"ab" at pad_len 5, and disagreement for the doubling segmentation of
"aaa" at pad_len 10 (grapheme count 6, character count 3, neither
truncated). -/
theorem c10_length_vs_graphemes_witness :
    min 5 ("ab".length + 2) = (0 :: (([2, 3] : List Nat).take 3 ++ [1])).length ∧
      min 10 ("aaa".length + 2) ≠ (0 :: (([2, 2, 2, 2, 2, 2] : List Nat).take 8 ++ [1])).length := by
  constructor
  · exact (c10_length_vs_graphemes testVocab testSeg 5 "ab" 0 1 [2, 3]
      (by decide) (by decide) (by decide) (by decide)).2.1 (by decide)
  · exact (c10_length_vs_graphemes testVocab segDouble 10 "aaa" 0 1 [2, 2, 2, 2, 2, 2]
      (by decide) (by decide) (by decide) (by decide)).2.2 (by decide)

/-! ### Claim C3 -/

/-- C3.  The per-word last valid layer-2 output is selected by
flattening all timesteps into one table and gathering at position
batch_dim * (seq_len - 1) + row_index: for every word b with true length
lens b ≥ 1, the gathered forward (resp. backward) value is exactly the
layer-2 output at timestep lens b - 1 — the last timestep inside the
word's true length, however much padding follows it. -/
theorem c3_last_output_gather {A O1 S1 O2 S2 E : Type}
    (P : LSTMParams A O1 S1 O2 S2 E) (B : Nat) (lens : Nat → Nat)
    (ids : Nat → Nat → Nat) (b : Nat) (hb : b < B) (_hL : 1 ≤ lens b) :
    outForward P B lens ids b = outputsForward P lens ids (lens b - 1) b ∧
      outBackward P B lens ids b = outputsBackward P lens ids (lens b - 1) b ∧
      slices B lens b = B * (lens b - 1) + b := by
  have hB : 0 < B := Nat.lt_of_le_of_lt (Nat.zero_le b) hb
  have hdiv : slices B lens b / B = lens b - 1 := by
    unfold slices
    rw [Nat.mul_add_div hB, Nat.div_eq_of_lt hb]
    omega
  have hmod : slices B lens b % B = b := by
    unfold slices
    rw [Nat.mul_add_mod, Nat.mod_eq_of_lt hb]
  refine ⟨?_, ?_, rfl⟩
  · unfold outForward getLastOutput flattenTB
    rw [hdiv, hmod]
  · unfold outBackward getLastOutput flattenTB
    rw [hdiv, hmod]

/-- C3, witness: the gather applied to concrete parameters at batch
size 2, word 0 of true length 3. -/
theorem c3_last_output_gather_witness :
    outForward testParams 2 (fun b => b + 3) (fun b t => b + t) 0 =
      outputsForward testParams (fun b => b + 3) (fun b t => b + t) 2 0 ∧
      outBackward testParams 2 (fun b => b + 3) (fun b t => b + t) 0 =
        outputsBackward testParams (fun b => b + 3) (fun b t => b + t) 2 0 ∧
      slices 2 (fun b => b + 3) 0 = 2 * 2 + 0 :=
  c3_last_output_gather testParams 2 (fun b => b + 3) (fun b t => b + t) 0
    (by decide) (by decide)

/-! ### Claim C4 -/

theorem maskedState_congr {S A O : Type} (cell : S → A → O × S) (s0 : S)
    (x1 x2 : Nat → A) (L : Nat) (hx : ∀ u, u < L → x1 u = x2 u) :
    ∀ t, maskedState cell s0 x1 L t = maskedState cell s0 x2 L t := by
  intro t
  induction t with
  | zero => rfl
  | succ u ih =>
    unfold maskedState
    by_cases hu : u < L
    · rw [if_pos hu, if_pos hu, ih, hx u hu]
    · rw [if_neg hu, if_neg hu, ih]

theorem maskedOutput_congr {S A O : Type} (cell : S → A → O × S) (zo : O) (s0 : S)
    (x1 x2 : Nat → A) (L : Nat) (hx : ∀ u, u < L → x1 u = x2 u) :
    ∀ t, maskedOutput cell zo s0 x1 L t = maskedOutput cell zo s0 x2 L t := by
  intro t
  unfold maskedOutput
  by_cases ht : t < L
  · rw [if_pos ht, if_pos ht, maskedState_congr cell s0 x1 x2 L hx t, hx t ht]
  · rw [if_neg ht, if_neg ht]

/-- The whole layer-1 output of row b depends only on the ids of row b
below the row's true length. -/
theorem out1_congr {A O1 S1 O2 S2 E : Type} (P : LSTMParams A O1 S1 O2 S2 E)
    (lens : Nat → Nat) (ids1 ids2 : Nat → Nat → Nat) (b : Nat)
    (hrow : ∀ t, t < lens b → ids1 b t = ids2 b t) :
    ∀ t, out1 P lens ids1 t b = out1 P lens ids2 t b := by
  have hin : ∀ u, u < lens b → lstmInputs P ids1 u b = lstmInputs P ids2 u b := by
    intro u hu
    unfold lstmInputs
    rw [hrow u hu]
  have hrev : ∀ u, u < lens b →
      reverseSeq (lstmInputs P ids1) lens u b = reverseSeq (lstmInputs P ids2) lens u b := by
    intro u hu
    unfold reverseSeq
    rw [if_pos hu, if_pos hu]
    exact hin (lens b - 1 - u) (by omega)
  have hfw : ∀ t, out1fw P lens ids1 t b = out1fw P lens ids2 t b := by
    intro t
    unfold out1fw
    exact maskedOutput_congr _ _ _ _ _ _ hin t
  have htmp : ∀ t, bwTmp P lens ids1 t b = bwTmp P lens ids2 t b := by
    intro t
    unfold bwTmp
    exact maskedOutput_congr _ _ _ _ _ _ hrev t
  have hbw : ∀ t, out1bw P lens ids1 t b = out1bw P lens ids2 t b := by
    intro t
    unfold out1bw reverseSeq
    by_cases ht : t < lens b
    · rw [if_pos ht, if_pos ht, htmp]
    · rw [if_neg ht, if_neg ht, htmp]
  intro t
  unfold out1
  rw [hfw t, hbw t]

/-- C4.  Changing only the padding entries of the id matrix beyond each
word's true length — with the batch size and the length vector held
fixed — leaves every row of the produced word_embeddings matrix
unchanged. -/
theorem c4_padding_independence {A O1 S1 O2 S2 E : Type}
    (P : LSTMParams A O1 S1 O2 S2 E) (B : Nat) (lens : Nat → Nat)
    (ids1 ids2 : Nat → Nat → Nat)
    (hagree : ∀ b, b < B → ∀ t, t < lens b → ids1 b t = ids2 b t) :
    ∀ b, b < B → wordEmbeddings P B lens ids1 b = wordEmbeddings P B lens ids2 b := by
  intro b hb
  have hrowfun : ∀ r, r < B → (fun u => out1 P lens ids1 u r) = (fun u => out1 P lens ids2 u r) :=
    fun r hr => funext (out1_congr P lens ids1 ids2 r (hagree r hr))
  have hmod : ∀ r, r < B → slices B lens r % B = r := by
    intro r hr
    unfold slices
    rw [Nat.mul_add_mod, Nat.mod_eq_of_lt hr]
  have hof : ∀ t, ∀ r, r < B →
      outputsForward P lens ids1 t r = outputsForward P lens ids2 t r := by
    intro t r hr
    unfold outputsForward
    rw [hrowfun r hr]
  have hrevfun : ∀ r, r < B →
      (fun u => out1Rev P lens ids1 u r) = (fun u => out1Rev P lens ids2 u r) := by
    intro r hr
    funext u
    unfold out1Rev reverseSeq
    by_cases hu : u < lens r
    · rw [if_pos hu, if_pos hu]
      exact congrFun (hrowfun r hr) (lens r - 1 - u)
    · rw [if_neg hu, if_neg hu]
      exact congrFun (hrowfun r hr) u
  have hob : ∀ t, ∀ r, r < B →
      outputsBackward P lens ids1 t r = outputsBackward P lens ids2 t r := by
    intro t r hr
    unfold outputsBackward
    rw [hrevfun r hr]
  unfold wordEmbeddings outForward outBackward getLastOutput flattenTB
  rw [hmod b hb]
  rw [hof (slices B lens b / B) b hb, hob (slices B lens b / B) b hb]

/-- C4, witness: two id matrices for one word of true length 2 that
agree below the true length and differ in the padding produce the same
embedding row. -/
theorem c4_padding_independence_witness :
    wordEmbeddings testParams 1 (fun _ => 2) (fun b t => if t < 2 then b + t + 1 else 7) 0 =
      wordEmbeddings testParams 1 (fun _ => 2) (fun b t => if t < 2 then b + t + 1 else 9) 0 :=
  c4_padding_independence testParams 1 (fun _ => 2)
    (fun b t => if t < 2 then b + t + 1 else 7)
    (fun b t => if t < 2 then b + t + 1 else 9)
    (fun b _ t ht => by
      have ht2 : t < 2 := ht
      show (if t < 2 then b + t + 1 else 7) = (if t < 2 then b + t + 1 else 9)
      rw [if_pos ht2, if_pos ht2])
    0 (by decide)

/-! ### Claim C6 -/

/-- C6, counterexample.  The claim says no dropout is applied to layer-1
inputs; but GetCell passes the configured keep probability as
input_keep_prob of the DropoutWrapper as well, so with a configured keep
probability (here 1/2) the layer-1 forward cell has input dropout. -/
theorem c6_counterexample :
    hasInputDropout (charLSTMCellSpecs testModelParams (some (1 / 2))).layer1fw = true := rfl

/-- C6, amended: when a keep probability is configured, dropout is
applied to both the inputs and the outputs of the layer-1 cells (the
DropoutWrapper is built with input_keep_prob and output_keep_prob both
set); with no keep probability configured no dropout is configured at
all; and the layer-2 cells are never wrapped in dropout. -/
theorem c6_dropout_wiring (mp : ModelParams) (k : ℚ) :
    hasDropout (charLSTMCellSpecs mp (some k)).layer2fw = false ∧
      hasDropout (charLSTMCellSpecs mp (some k)).layer2bw = false ∧
      hasDropout (charLSTMCellSpecs mp none).layer2fw = false ∧
      hasDropout (charLSTMCellSpecs mp none).layer2bw = false ∧
      hasInputDropout (charLSTMCellSpecs mp (some k)).layer1fw = true ∧
      hasOutputDropout (charLSTMCellSpecs mp (some k)).layer1fw = true ∧
      hasInputDropout (charLSTMCellSpecs mp (some k)).layer1bw = true ∧
      hasOutputDropout (charLSTMCellSpecs mp (some k)).layer1bw = true ∧
      hasDropout (charLSTMCellSpecs mp none).layer1fw = false ∧
      hasDropout (charLSTMCellSpecs mp none).layer1bw = false :=
  ⟨rfl, rfl, rfl, rfl, rfl, rfl, rfl, rfl, rfl, rfl⟩

/-! ### Claim C7 -/

/-- C7.  Whenever the CharCNN construction succeeds, the embedding
dimension is 3 * c2v_layer2_hidden_size (one hidden_size-channel pooled
vector per kernel width in {3,4,5}, concatenated, the residual block
preserving the dimension), and the construction is entirely independent
of the configured word_embed_dims. -/
theorem c7_cnn_embedding_dims :
    (∀ (mp : ModelParams) (msl ce d : Nat),
      charCNNBuild mp msl ce = some d → d = 3 * mp.c2vLayer2HiddenSize) ∧
    (∀ (mp : ModelParams) (msl ce wed : Nat),
      charCNNBuild { mp with wordEmbedDims := wed } msl ce = charCNNBuild mp msl ce) := by
  constructor
  · intro mp msl ce d h
    unfold charCNNBuild at h
    split at h
    · cases h
    · split at h
      · split at h
        · cases h
        · split at h
          · cases h
          · split at h
            · rcases Option.some.inj h with rfl
              rfl
            · cases h
      · cases h
  · intro mp msl ce wed
    rfl

/-- C7, witness: a successful concrete construction with hidden size 7
yields embedding dimension 21 = 3 * 7. -/
theorem c7_cnn_embedding_dims_witness :
    charCNNBuild testModelParams 15 5 = some 21 ∧
      21 = 3 * testModelParams.c2vLayer2HiddenSize :=
  ⟨by decide, c7_cnn_embedding_dims.1 testModelParams 15 5 21 (by decide)⟩

/-! ### Claim C8 -/

theorem charCNNBuild_some_le {mp : ModelParams} {msl ce d : Nat}
    (h : charCNNBuild mp msl ce = some d) : 7 ≤ msl := by
  unfold charCNNBuild at h
  split at h
  · cases h
  · split at h
    · split at h
      · cases h
      · rename_i pools hpools
        rcases mapOption_some_of_mem hpools 5 (by decide) with ⟨p, hp⟩
        unfold convPool at hp
        split at hp
        · cases hp
        · rename_i conv2 hconv2
          unfold conv2dValid at hconv2
          split at hconv2
          · rename_i hcond
            have h5 : (5 : Nat) ≤ msl - 2 := hcond.2.2.2.1
            omega
          · cases hconv2
    · cases h

/-- C8.  Construction of a CharCNN with max_sequence_len below 7 (the
minimum demanded by the width-5 kernel) fails with a shape error: the
whole shape computation yields none.  At or above the minimum, for every
width w in {3,4,5} the width-w convolution leaves a time dimension of
max_sequence_len - 1 - w and the max-pool window of exactly that size
collapses it to 1. -/
theorem c8_min_sequence_len :
    (∀ (mp : ModelParams) (msl ce : Nat), msl < 7 → charCNNBuild mp msl ce = none) ∧
    (∀ (msl l1 hs width : Nat), 7 ≤ msl → width ∈ filterSizes → 1 ≤ l1 → 1 ≤ hs →
      conv2dValid (Shape3.mk (msl - 2) l1 1) width l1 1 hs =
          some (Shape3.mk (msl - 1 - width) 1 hs) ∧
        maxPoolValidH (Shape3.mk (msl - 1 - width) 1 hs) (msl - 1 - width) =
          some (Shape3.mk 1 1 hs)) := by
  constructor
  · intro mp msl ce hmsl
    cases hbuild : charCNNBuild mp msl ce with
    | none => rfl
    | some d => exact absurd (charCNNBuild_some_le hbuild) (by omega)
  · intro msl l1 hs width h7 hw h1 h2
    have hwb : 3 ≤ width ∧ width ≤ 5 := by
      have : width = 3 ∨ width = 4 ∨ width = 5 := by
        simpa [filterSizes] using hw
      omega
    constructor
    · unfold conv2dValid
      rw [if_pos ⟨by omega, h1, h2, by
          show width ≤ msl - 2
          omega, le_refl l1, rfl⟩]
      simp only [Option.some.injEq, Shape3.mk.injEq]
      refine ⟨by omega, by omega, trivial⟩
    · unfold maxPoolValidH
      rw [if_pos ⟨by omega, le_refl _⟩]
      simp only [Option.some.injEq, Shape3.mk.injEq]
      refine ⟨by omega, trivial, trivial⟩

/-- C8, witness: max_sequence_len 6 fails to build, and at
max_sequence_len 7 the width-5 stage leaves time dimension 1 which its
size-1 pool window collapses to 1. -/
theorem c8_min_sequence_len_witness :
    charCNNBuild testModelParams 6 5 = none ∧
      conv2dValid (Shape3.mk (7 - 2) 6 1) 5 6 1 7 =
        some (Shape3.mk (7 - 1 - 5) 1 7) ∧
      maxPoolValidH (Shape3.mk (7 - 1 - 5) 1 7) (7 - 1 - 5) = some (Shape3.mk 1 1 7) := by
  refine ⟨c8_min_sequence_len.1 testModelParams 6 5 (by decide), ?_, ?_⟩
  · exact (c8_min_sequence_len.2 7 6 7 5 (by decide) (by decide) (by decide) (by decide)).1
  · exact (c8_min_sequence_len.2 7 6 7 5 (by decide) (by decide) (by decide) (by decide)).2
